import Mathlib

/-!
Shallow embedding of the VoiceOfDine review-analytics pipeline
(src/app.py): per-review sentiment labelling, keyword-based issue
detection, the composite performance score, risk tiers, the strategic
action message and dataset selection.  Numeric computations of the
script are modelled over the rationals; the external polarity scorer
(TextBlob) is modelled as an opaque `Option` result per review, where
`none` stands for a classifier failure (the except branch of
`get_sentiment`).
-/

namespace VoiceOfDine

/-- Sentiment labels produced by `get_sentiment` (src/app.py lines 70-80). -/
inductive Sentiment where
  | Positive
  | Neutral
  | Negative
deriving DecidableEq, Repr

/-- One row of the review table: the review text, the polarity the external
classifier returns for it (`none` = the classifier raised), and the
extracted numeric rating (`none` = missing). -/
structure Review where
  text : List Char
  polarity : Option ℚ
  rating : Option ℚ
deriving DecidableEq, Repr

/-- Embeds `get_sentiment` (src/app.py lines 70-80): polarity `> 0` is
Positive, `== 0` Neutral, otherwise Negative; any failure of the polarity
computation (modelled as `none`) degrades to Neutral. -/
def get_sentiment (polarity : Option ℚ) : Sentiment :=
  match polarity with
  | none => Sentiment.Neutral
  | some score =>
    if score > 0 then Sentiment.Positive
    else if score = 0 then Sentiment.Neutral
    else Sentiment.Negative

/-- The sentiment label of one review row. -/
def labelOf (r : Review) : Sentiment :=
  get_sentiment r.polarity

/-- Embeds `restaurant_df[review_col].apply(get_sentiment)` (line 82) over a
list of texts, with the external classifier passed explicitly. -/
def sentimentLabels (classify : List Char → Option ℚ) (texts : List (List Char)) :
    List Sentiment :=
  texts.map (fun t => get_sentiment (classify t))

/-- Embeds `total_reviews = len(restaurant_df)` (line 87). -/
def total_reviews (ds : List Review) : ℕ :=
  ds.length

/-- Embeds `len(restaurant_df[restaurant_df["Sentiment"] == "Negative"])` (line 88). -/
def negative_count (ds : List Review) : ℕ :=
  (ds.filter (fun r => labelOf r == Sentiment.Negative)).length

/-- Embeds `len(restaurant_df[restaurant_df["Sentiment"] == "Positive"])` (line 89). -/
def positive_count (ds : List Review) : ℕ :=
  (ds.filter (fun r => labelOf r == Sentiment.Positive)).length

/-- Count of rows labelled Neutral (the remaining label of the partition). -/
def neutral_count (ds : List Review) : ℕ :=
  (ds.filter (fun r => labelOf r == Sentiment.Neutral)).length

/-- Embeds `negative_ratio = negative_count / total_reviews` (line 91). -/
def negative_ratio (ds : List Review) : ℚ :=
  (negative_count ds : ℚ) / (total_reviews ds : ℚ)

/-- Embeds `positive_ratio = positive_count / total_reviews` (line 92). -/
def positive_ratio (ds : List Review) : ℚ :=
  (positive_count ds : ℚ) / (total_reviews ds : ℚ)

/-- Lower-casing of a character list, modelling Python `str.lower`. -/
def lowerChars (s : List Char) : List Char :=
  s.map Char.toLower

/-- Embeds `text_data = " ".join(restaurant_df[review_col].astype(str)).lower()`
(line 113). -/
def text_data (ds : List Review) : List Char :=
  lowerChars (List.intercalate [' '] (ds.map Review.text))

/-- Whether the character list `s` starts with the pattern `p`. -/
def beginsWith : List Char → List Char → Bool
  | [], _ => true
  | _ :: _, [] => false
  | a :: p, b :: s => a == b && beginsWith p s

/-- Fuel-driven scanner behind `pyCount`: at each position, a match of `p`
counts once and the scan resumes after it, otherwise the scan advances one
character.  Adequate whenever the fuel is at least the text length. -/
def pyCountAux (p : List Char) : ℕ → List Char → ℕ
  | 0, _ => 0
  | fuel + 1, s =>
    if beginsWith p s then pyCountAux p fuel (s.drop p.length) + 1
    else
      match s with
      | [] => 0
      | _ :: t => pyCountAux p fuel t

/-- Embeds CPython `str.count`: the number of non-overlapping occurrences of
`p` in `s`, scanning left to right and skipping past each match; an empty
pattern counts `len + 1` as in Python. -/
def pyCount (p s : List Char) : ℕ :=
  if p = [] then s.length + 1 else pyCountAux p s.length s

/-- Embeds `count_words` (src/app.py lines 127-128):
`sum(text_data.count(w) for w in word_list)`, with the concatenated text
passed explicitly. -/
def count_words (text : List Char) (word_list : List (List Char)) : ℕ :=
  (word_list.map (fun w => pyCount w text)).sum

/-- Keyword list for the Service category (line 121). -/
def service_words : List (List Char) :=
  ["slow", "delay", "waiting", "late"].map String.toList

/-- Keyword list for the Food Quality category (line 122). -/
def food_words : List (List Char) :=
  ["bad", "tasteless", "cold", "worst"].map String.toList

/-- Keyword list for the Pricing category (line 123). -/
def price_words : List (List Char) :=
  ["expensive", "overpriced"].map String.toList

/-- Keyword list for the Staff Behavior category (line 124). -/
def staff_words : List (List Char) :=
  ["rude", "unfriendly"].map String.toList

/-- Keyword list for the Cleanliness category (line 125). -/
def clean_words : List (List Char) :=
  ["dirty", "hygiene"].map String.toList

/-- One entry of the `issue_scores` dict: keyword hits over total reviews
(lines 130-136). -/
def issue_score (ds : List Review) (words : List (List Char)) : ℚ :=
  (count_words (text_data ds) words : ℚ) / (total_reviews ds : ℚ)

/-- Embeds the `issue_scores` dict (lines 130-136) in its insertion order. -/
def issue_scores (ds : List Review) : List (String × ℚ) :=
  [("Service", issue_score ds service_words),
   ("Food Quality", issue_score ds food_words),
   ("Pricing", issue_score ds price_words),
   ("Staff Behavior", issue_score ds staff_words),
   ("Cleanliness", issue_score ds clean_words)]

/-- Embeds Python `max(d, key=d.get)` over an insertion-ordered dict: the
running best is replaced only by a strictly greater value, so the first
maximum wins. -/
def pyMaxPairs : String × ℚ → List (String × ℚ) → String
  | b, [] => b.1
  | b, c :: rest => pyMaxPairs (if c.2 > b.2 then c else b) rest

/-- The dominant issue as a function of the five severity values, in the
fixed enumeration order of the `issue_scores` dict. -/
def main_issue_of (s1 s2 s3 s4 s5 : ℚ) : String :=
  pyMaxPairs ("Service", s1)
    [("Food Quality", s2), ("Pricing", s3), ("Staff Behavior", s4), ("Cleanliness", s5)]

/-- Embeds `main_issue = max(issue_scores, key=issue_scores.get)` (line 138). -/
def main_issue (ds : List Review) : String :=
  main_issue_of (issue_score ds service_words) (issue_score ds food_words)
    (issue_score ds price_words) (issue_score ds staff_words)
    (issue_score ds clean_words)

/-- The non-missing numeric ratings of the dataset. -/
def ratings (ds : List Review) : List ℚ :=
  ds.filterMap Review.rating

/-- Embeds lines 97-101: the mean of the non-missing ratings when a rating
column exists and at least one non-missing rating is present, otherwise
`None`. -/
def avg_rating (hasRatingCol : Bool) (ds : List Review) : Option ℚ :=
  if hasRatingCol ∧ ratings ds ≠ [] then
    some ((ratings ds).sum / ((ratings ds).length : ℚ))
  else none

/-- Embeds `rating_score = (avg_rating / 5) if avg_rating else 0.5`
(line 143): Python truthiness, so both `None` and an average of exactly
`0.0` fall to the default `0.5`. -/
def rating_score (hasRatingCol : Bool) (ds : List Review) : ℚ :=
  match avg_rating hasRatingCol ds with
  | none => 1/2
  | some a => if a = 0 then 1/2 else a / 5

/-- Embeds `complaint_severity = sum(issue_scores.values())` (line 144). -/
def complaint_severity (ds : List Review) : ℚ :=
  ((issue_scores ds).map Prod.snd).sum

/-- Rounding of a rational to the nearest integer with ties to the even
integer, the tie rule Python `round` documents. -/
def roundHalfEven (q : ℚ) : ℤ :=
  if q - ⌊q⌋ < 1/2 then ⌊q⌋
  else if q - ⌊q⌋ > 1/2 then ⌊q⌋ + 1
  else if ⌊q⌋ % 2 = 0 then ⌊q⌋ else ⌊q⌋ + 1

/-- Models Python `round(x, 2)` over the rationals. -/
def round2 (q : ℚ) : ℚ :=
  (roundHalfEven (q * 100) : ℚ) / 100

/-- Embeds the composite performance score (lines 146-153): the weighted
formula, rounded to 2 decimal places, with no clamping to the interval
[0, 100]. -/
def performance_score (hasRatingCol : Bool) (ds : List Review) : ℚ :=
  round2 (positive_ratio ds * 40 + (1 - negative_ratio ds) * 30
    + rating_score hasRatingCol ds * 20 + (1 - complaint_severity ds) * 10)

/-- Embeds the risk tier chain (lines 159-170). -/
def risk (negative_ratio : ℚ) : String :=
  if negative_ratio > 1/2 then "Critical"
  else if negative_ratio > 3/10 then "High"
  else if negative_ratio > 3/20 then "Moderate"
  else "Low"

/-- Embeds the strategic action plan (lines 177-184).  `positive_ratio` is in
scope in the script at this point; the branches consult only the risk tier. -/
def strategic_action (risk : String) (positive_ratio : ℚ) : String :=
  if risk = "Critical" then "Immediate operational restructuring required."
  else if risk = "High" then "Focused improvement strategy recommended."
  else if risk = "Moderate" then "Minor operational tuning required."
  else "Maintain excellence and expand growth strategy."

/-- One row of the loaded table as the dataset-selection step sees it: only
the entity (restaurant-name) column matters there. -/
structure Row where
  entity : List Char
deriving DecidableEq, Repr

/-- Embeds `df[df[restaurant_col].str.lower() == restaurant_name.lower()]`
(line 56). -/
def filterByName (df : List Row) (restaurant_name : List Char) : List Row :=
  df.filter (fun r => lowerChars r.entity == lowerChars restaurant_name)

/-- Embeds the dataset selection (lines 52-58): when a file was uploaded the
whole uploaded table is analysed; otherwise the bundled table is filtered to
the entered restaurant name when an entity column and a non-empty name are
present, and is empty otherwise. -/
def restaurant_df (uploaded : Option (List Row)) (localDf : List Row)
    (hasRestaurantCol : Bool) (restaurant_name : List Char) : List Row :=
  match uploaded with
  | some df => df
  | none =>
    if hasRestaurantCol ∧ restaurant_name ≠ [] then filterByName localDf restaurant_name
    else []

/-- A match of `p` in `s` at position `i`. -/
def occursAt (p s : List Char) (i : ℕ) : Bool :=
  beginsWith p (s.drop i)

/-- The number of (possibly overlapping) positions of `s` at which `p`
matches, the reading of the matcher the specification states. -/
def overlapCount (p s : List Char) : ℕ :=
  ((List.range (s.length + 1)).filter (fun i => occursAt p s i)).length

/-- A strictly increasing list of match positions of `p` in `s` whose
matches are pairwise disjoint. -/
def DisjointOccs (p s : List Char) (idxs : List ℕ) : Prop :=
  idxs.Chain' (fun a b => a + p.length ≤ b) ∧ ∀ i ∈ idxs, occursAt p s i = true

/-- The pair `q` is an element of `l` whose value is greatest, standing
before every other element attaining that value. -/
def IsFirstMax (l : List (String × ℚ)) (q : String × ℚ) : Prop :=
  ∃ l1 l2, l = l1 ++ q :: l2 ∧ (∀ x ∈ l, x.2 ≤ q.2) ∧ ∀ x ∈ l1, x.2 < q.2

/-- A dataset of one all-complaint negative review: three occurrences of the
keyword "slow" in a single review drive `complaint_severity` to 3 and the
performance score below 0. -/
def dsPathological : List Review :=
  [{ text := "slow slow slow".toList, polarity := some (-1), rating := none }]

/-- A dataset of one review whose extracted rating is exactly 0. -/
def dsZeroRating : List Review :=
  [{ text := "x".toList, polarity := none, rating := some 0 }]

/-- A dataset of one positive review, used to instantiate theorems with
hypotheses at a concrete input. -/
def dsOnePositive : List Review :=
  [{ text := "great".toList, polarity := some 1, rating := some 4 }]

/-- The running best of the Python max fold is the first maximum of the
whole list: it attains the greatest value and strictly exceeds everything
standing before it. -/
theorem pyMaxPairs_isFirstMax : ∀ (l : List (String × ℚ)) (b : String × ℚ),
    ∃ q, IsFirstMax (b :: l) q ∧ pyMaxPairs b l = q.1 := by
  intro l
  induction l with
  | nil =>
    intro b
    exact ⟨b, ⟨[], [], rfl, by simp, by simp⟩, rfl⟩
  | cons c rest ih =>
    intro b
    by_cases hc : c.2 > b.2
    · obtain ⟨q, ⟨l1, l2, heq, hmax, hlt⟩, hres⟩ := ih c
      have hcq : c.2 ≤ q.2 := hmax c (List.mem_cons_self c rest)
      refine ⟨q, ⟨b :: l1, l2, ?_, ?_, ?_⟩, ?_⟩
      · rw [List.cons_append, ← heq]
      · intro x hx
        rcases List.mem_cons.mp hx with hxb | hxr
        · subst hxb; exact le_of_lt (lt_of_lt_of_le hc hcq)
        · exact hmax x hxr
      · intro x hx
        rcases List.mem_cons.mp hx with hxb | hxl
        · subst hxb; exact lt_of_lt_of_le hc hcq
        · exact hlt x hxl
      · show pyMaxPairs (if c.2 > b.2 then c else b) rest = q.1
        rw [if_pos hc]; exact hres
    · push_neg at hc
      obtain ⟨q, ⟨l1, l2, heq, hmax, hlt⟩, hres⟩ := ih b
      cases l1 with
      | nil =>
        obtain ⟨hbq, hrest⟩ : b = q ∧ rest = l2 := by simpa using heq
        refine ⟨b, ⟨[], c :: rest, rfl, ?_, by simp⟩, ?_⟩
        · intro x hx
          rcases List.mem_cons.mp hx with hxb | hxc
          · subst hxb; exact le_refl _
          · rcases List.mem_cons.mp hxc with hxc' | hxr
            · subst hxc'; exact hc
            · have hxq := hmax x (List.mem_cons_of_mem b hxr)
              rw [hbq]; exact hxq
        · show pyMaxPairs (if c.2 > b.2 then c else b) rest = b.1
          rw [if_neg (not_lt.mpr hc), hres, hbq]
      | cons x l1' =>
        obtain ⟨hbx1, hrest⟩ : b = x ∧ rest = l1' ++ q :: l2 := by simpa using heq
        have hbq : b.2 < q.2 := by rw [hbx1]; exact hlt x (List.mem_cons_self x l1')
        refine ⟨q, ⟨b :: c :: l1', l2, ?_, ?_, ?_⟩, ?_⟩
        · simp [hrest]
        · intro y hy
          rcases List.mem_cons.mp hy with hyb | hy'
          · subst hyb; exact le_of_lt hbq
          · rcases List.mem_cons.mp hy' with hyc | hyr
            · subst hyc; exact le_of_lt (lt_of_le_of_lt hc hbq)
            · exact hmax y (List.mem_cons_of_mem b hyr)
        · intro y hy
          rcases List.mem_cons.mp hy with hyb | hy'
          · subst hyb; exact hbq
          · rcases List.mem_cons.mp hy' with hyc | hyl
            · subst hyc; exact lt_of_le_of_lt hc hbq
            · exact hlt y (List.mem_cons_of_mem x hyl)
        · show pyMaxPairs (if c.2 > b.2 then c else b) rest = q.1
          rw [if_neg (not_lt.mpr hc)]; exact hres

/-- C6: for every severity vector over the five issue categories, the
dominant issue is the argmax of severity with ties broken by the fixed
enumeration order Service, Food Quality, Pricing, Staff Behavior,
Cleanliness (first maximum wins), and with all severities 0 the dominant
issue is Service. -/
theorem C6_dominant_issue (s1 s2 s3 s4 s5 : ℚ) :
    (∃ q, IsFirstMax [("Service", s1), ("Food Quality", s2), ("Pricing", s3),
        ("Staff Behavior", s4), ("Cleanliness", s5)] q ∧
      main_issue_of s1 s2 s3 s4 s5 = q.1) ∧
    main_issue_of 0 0 0 0 0 = "Service" :=
  ⟨pyMaxPairs_isFirstMax _ _, by norm_num [main_issue_of, pyMaxPairs]⟩

/-- C2: over the unit interval the risk tier is Critical exactly above 0.5,
High on (0.3, 0.5], Moderate on (0.15, 0.3], Low at or below 0.15, and a
negative ratio of 2/3 is Critical. -/
theorem C2_risk_tiers (r : ℚ) (h0 : 0 ≤ r) (h1 : r ≤ 1) :
    ((risk r = "Critical" ↔ 1/2 < r) ∧
     (risk r = "High" ↔ 3/10 < r ∧ r ≤ 1/2) ∧
     (risk r = "Moderate" ↔ 3/20 < r ∧ r ≤ 3/10) ∧
     (risk r = "Low" ↔ r ≤ 3/20)) ∧
    risk (2/3 : ℚ) = "Critical" := by
  constructor
  · unfold risk
    split_ifs with hc hh hm <;>
      refine ⟨?_, ?_, ?_, ?_⟩ <;> simp_all <;> first | linarith | (intro h; linarith)
  · norm_num [risk]

/-- C2 witness: the theorem instantiated at the negative ratio 2/3 of
Scenario C. -/
theorem C2_risk_tiers_witness :
    (0 : ℚ) ≤ 2/3 ∧ (2/3 : ℚ) ≤ 1 ∧ risk (2/3 : ℚ) = "Critical" :=
  ⟨by norm_num, by norm_num, (C2_risk_tiers (2/3) (by norm_num) (by norm_num)).2⟩

/-- C7 counterexample: the strategic action at tier Low is not a branch of
two distinct messages gated on the positive ratio exceeding 0.6, since the
code returns one fixed message for every positive ratio. -/
theorem C7_counterexample :
    ¬ ∃ expansion maintenance : String, expansion ≠ maintenance ∧
        ∀ r : ℚ, strategic_action "Low" r =
          if 3/5 < r then expansion else maintenance := by
  rintro ⟨e, m, hne, h⟩
  have h1 := h 1
  have h0 := h 0
  rw [if_pos (by norm_num)] at h1
  rw [if_neg (by norm_num)] at h0
  exact hne (h1.symm.trans h0)

/-- C7 amended: at risk tier Low the recommendation does not branch on the
positive ratio; the single fixed maintain-and-expand message is returned for
every positive ratio, in particular for 0.8. -/
theorem C7_low_recommendation (r : ℚ) :
    strategic_action "Low" r = "Maintain excellence and expand growth strategy." ∧
    strategic_action "Low" (4/5 : ℚ) = strategic_action "Low" r :=
  ⟨rfl, rfl⟩

/-- C8: sentiment classification is Positive for polarity above 0, Neutral
at exactly 0, Negative below 0; a classifier failure yields Neutral; and a
failure on one review degrades that record alone to Neutral while the rest
of the batch is labelled normally. -/
theorem C8_sentiment_classification (score : ℚ) :
    ((get_sentiment (some score) = Sentiment.Positive ↔ 0 < score) ∧
     (get_sentiment (some score) = Sentiment.Neutral ↔ score = 0) ∧
     (get_sentiment (some score) = Sentiment.Negative ↔ score < 0)) ∧
    get_sentiment none = Sentiment.Neutral ∧
    ∀ (classify : List Char → Option ℚ) (pre post : List (List Char)) (t : List Char),
      classify t = none →
      sentimentLabels classify (pre ++ t :: post) =
        sentimentLabels classify pre ++ Sentiment.Neutral :: sentimentLabels classify post := by
  refine ⟨⟨?_, ?_, ?_⟩, rfl, ?_⟩
  · simp only [get_sentiment]
    split_ifs with h1 h2 <;> simp_all <;> linarith
  · simp only [get_sentiment]
    split_ifs with h1 h2 <;> simp_all <;> linarith
  · simp only [get_sentiment]
    split_ifs with h1 h2 <;> simp_all <;>
      first
      | linarith
      | exact lt_of_le_of_ne h1 h2
  · intro classify pre post t ht
    simp [sentimentLabels, ht, get_sentiment]

/-- C8 witness: a classifier failing on the single review of a batch yields
the Neutral label for that record. -/
theorem C8_sentiment_classification_witness :
    (fun _ : List Char => (none : Option ℚ)) "x".toList = none ∧
    sentimentLabels (fun _ => none) ([] ++ "x".toList :: []) =
      sentimentLabels (fun _ => none) [] ++
        Sentiment.Neutral :: sentimentLabels (fun _ => none) [] :=
  ⟨rfl, (C8_sentiment_classification 1).2.2 (fun _ => none) [] [] "x".toList rfl⟩

/-- Every review is labelled with exactly one of the three sentiments, so
the three filtered counts partition the dataset. -/
theorem counts_partition (ds : List Review) :
    positive_count ds + negative_count ds + neutral_count ds = total_reviews ds := by
  induction ds with
  | nil => rfl
  | cons r t ih =>
    simp only [positive_count, negative_count, neutral_count, total_reviews,
      List.filter_cons, List.length_cons] at *
    cases hl : labelOf r <;> simp [hl] <;> omega

/-- C9: for every dataset with a positive review count, the Positive,
Negative and Neutral counts sum exactly to the total review count. -/
theorem C9_sentiment_partition (ds : List Review) (h : 0 < total_reviews ds) :
    positive_count ds + negative_count ds + neutral_count ds = total_reviews ds :=
  counts_partition ds

/-- C9 witness: the partition at a concrete one-review dataset. -/
theorem C9_sentiment_partition_witness :
    0 < total_reviews dsOnePositive ∧
    positive_count dsOnePositive + negative_count dsOnePositive
      + neutral_count dsOnePositive = total_reviews dsOnePositive :=
  ⟨by decide, C9_sentiment_partition dsOnePositive (by decide)⟩

/-- C10: with an uploaded file the whole uploaded table is analysed, for
every entered restaurant name; without one the bundled table is filtered to
the name when an entity column and a non-empty name are present, and is
empty otherwise. -/
theorem C10_dataset_selection (uploadedDf localDf : List Row) (hasCol : Bool)
    (name : List Char) :
    restaurant_df (some uploadedDf) localDf hasCol name = uploadedDf ∧
    (hasCol = true → name ≠ [] →
      restaurant_df none localDf hasCol name = filterByName localDf name) ∧
    (hasCol = false ∨ name = [] → restaurant_df none localDf hasCol name = []) := by
  refine ⟨rfl, ?_, ?_⟩
  · intro hcol hname
    simp [restaurant_df, hcol, hname]
  · rintro (hcol | hname)
    · simp [restaurant_df, hcol]
    · simp [restaurant_df, hname]

/-- C10 witness: the no-upload branch at a concrete table and name. -/
theorem C10_dataset_selection_witness :
    (true = true) ∧ (['a'] : List Char) ≠ [] ∧
    restaurant_df none [⟨['a']⟩, ⟨['b']⟩] true ['a'] =
      filterByName [⟨['a']⟩, ⟨['b']⟩] ['a'] :=
  ⟨rfl, by decide,
    (C10_dataset_selection [] [⟨['a']⟩, ⟨['b']⟩] true ['a']).2.1 rfl (by decide)⟩

/-- The pathological dataset has complaint severity 3: the keyword "slow"
matches three times in its single review. -/
theorem dsPathological_severity : complaint_severity dsPathological = 3 := by
  have h1 : count_words (text_data dsPathological) service_words = 3 := by decide
  have h2 : count_words (text_data dsPathological) food_words = 0 := by decide
  have h3 : count_words (text_data dsPathological) price_words = 0 := by decide
  have h4 : count_words (text_data dsPathological) staff_words = 0 := by decide
  have h5 : count_words (text_data dsPathological) clean_words = 0 := by decide
  have ht : total_reviews dsPathological = 1 := rfl
  simp only [complaint_severity, issue_scores, issue_score, h1, h2, h3, h4, h5, ht,
    List.map_cons, List.map_nil, List.sum_cons, List.sum_nil]
  norm_num

/-- The performance score of the pathological dataset is the unclamped
value -10. -/
theorem dsPathological_score : performance_score false dsPathological = -10 := by
  have hpc : positive_count dsPathological = 0 := by decide
  have hnc : negative_count dsPathological = 1 := by decide
  have ht : total_reviews dsPathological = 1 := rfl
  have hpr : positive_ratio dsPathological = 0 := by
    rw [positive_ratio, hpc, ht]; norm_num
  have hnr : negative_ratio dsPathological = 1 := by
    rw [negative_ratio, hnc, ht]; norm_num
  have hrs : rating_score false dsPathological = 1/2 := by
    simp [rating_score, avg_rating]
  rw [performance_score, hpr, hnr, hrs, dsPathological_severity]
  norm_num [round2, roundHalfEven]

/-- C1: for every dataset with a positive review count the performance score
is the weighted formula over positive ratio, negative ratio, rating score and
complaint severity, rounded to 2 decimal places and not clamped to [0, 100]:
a complaint severity above 1 can drive the rounded score below 0 and the
unclamped value is returned. -/
theorem C1_performance_score (hasRatingCol : Bool) (ds : List Review)
    (h : 0 < total_reviews ds) :
    performance_score hasRatingCol ds =
      round2 (positive_ratio ds * 40 + (1 - negative_ratio ds) * 30
        + rating_score hasRatingCol ds * 20 + (1 - complaint_severity ds) * 10) ∧
    1 < complaint_severity dsPathological ∧
    performance_score false dsPathological = -10 ∧
    performance_score false dsPathological < 0 :=
  ⟨rfl, by rw [dsPathological_severity]; norm_num, dsPathological_score,
    by rw [dsPathological_score]; norm_num⟩

/-- C1 witness: the formula at the concrete one-review dataset whose
complaint severity exceeds 1. -/
theorem C1_performance_score_witness :
    0 < total_reviews dsPathological ∧
    performance_score false dsPathological =
      round2 (positive_ratio dsPathological * 40
        + (1 - negative_ratio dsPathological) * 30
        + rating_score false dsPathological * 20
        + (1 - complaint_severity dsPathological) * 10) :=
  ⟨by decide, (C1_performance_score false dsPathological (by decide)).1⟩

/-- The average rating of the zero-rating dataset is exactly 0. -/
theorem dsZeroRating_avg : avg_rating true dsZeroRating = some 0 := by
  simp [avg_rating, ratings, dsZeroRating]

/-- The average rating of the one-positive-review dataset is 4. -/
theorem dsOnePositive_avg : avg_rating true dsOnePositive = some 4 := by
  simp [avg_rating, ratings, dsOnePositive]

/-- C4 counterexample: a dataset whose one non-missing rating is exactly 0
has an average rating of 0, yet the code's truthiness test substitutes the
neutral default 0.5 instead of 0 / 5 = 0, against the claim that the default
is used only when no rating exists. -/
theorem C4_counterexample :
    avg_rating true dsZeroRating = some 0 ∧
    rating_score true dsZeroRating = 1/2 ∧
    (0 : ℚ) / 5 = 0 ∧ (1/2 : ℚ) ≠ 0 :=
  ⟨dsZeroRating_avg, by simp [rating_score, dsZeroRating_avg], by norm_num, by norm_num⟩

/-- C4 amended: the rating score is the average rating over 5 whenever the
average exists and is nonzero; the neutral default 0.5 is substituted when
no rating column is present, no non-missing rating exists, or the average
rating is exactly 0 (Python truthiness of 0.0). -/
theorem C4_rating_score (hasRatingCol : Bool) (ds : List Review) :
    (∀ a : ℚ, avg_rating hasRatingCol ds = some a → a ≠ 0 →
      rating_score hasRatingCol ds = a / 5) ∧
    (avg_rating hasRatingCol ds = none → rating_score hasRatingCol ds = 1/2) ∧
    (avg_rating hasRatingCol ds = some 0 → rating_score hasRatingCol ds = 1/2) ∧
    (hasRatingCol = false → avg_rating hasRatingCol ds = none) ∧
    (ratings ds = [] → avg_rating hasRatingCol ds = none) := by
  refine ⟨?_, ?_, ?_, ?_, ?_⟩
  · intro a ha hne
    simp [rating_score, ha, hne]
  · intro ha
    simp [rating_score, ha]
  · intro ha
    simp [rating_score, ha]
  · intro hcol
    simp [avg_rating, hcol]
  · intro hr
    simp [avg_rating, hr]

/-- C4 amended witness: a dataset with one rating of 4 gets rating score
4 / 5. -/
theorem C4_rating_score_witness :
    avg_rating true dsOnePositive = some 4 ∧ (4 : ℚ) ≠ 0 ∧
    rating_score true dsOnePositive = 4 / 5 :=
  ⟨dsOnePositive_avg, by norm_num,
    (C4_rating_score true dsOnePositive).1 4 dsOnePositive_avg (by norm_num)⟩

/-- A pattern that begins a text is at most as long as the text. -/
theorem beginsWith_length {p s : List Char} (h : beginsWith p s = true) :
    p.length ≤ s.length := by
  induction p generalizing s with
  | nil => simp
  | cons a q ih =>
    cases s with
    | nil => simp [beginsWith] at h
    | cons b t =>
      simp only [beginsWith, Bool.and_eq_true] at h
      exact Nat.succ_le_succ (ih h.2)

/-- A nonempty pattern never begins the empty text. -/
theorem beginsWith_nil {p : List Char} (hp : p ≠ []) : beginsWith p [] = false := by
  cases p with
  | nil => exact absurd rfl hp
  | cons a q => rfl

/-- A nonempty list has length at least 1. -/
theorem one_le_length {p : List Char} (hp : p ≠ []) : 1 ≤ p.length := by
  cases p with
  | nil => exact absurd rfl hp
  | cons a q => simp

/-- Any fuel at least the text length computes the same scan count as the
text length itself. -/
theorem pyCountAux_fuel (p : List Char) (hp : p ≠ []) :
    ∀ fuel s, s.length ≤ fuel → pyCountAux p fuel s = pyCountAux p s.length s := by
  intro fuel
  induction fuel using Nat.strong_induction_on with
  | _ fuel ih =>
    intro s hs
    cases fuel with
    | zero =>
      have hnil : s = [] := List.eq_nil_of_length_eq_zero (Nat.le_zero.mp hs)
      subst hnil; rfl
    | succ f =>
      cases s with
      | nil => simp [pyCountAux, beginsWith_nil hp]
      | cons c t =>
        have hlen : t.length ≤ f := by simpa using hs
        show pyCountAux p (f + 1) (c :: t) = pyCountAux p (t.length + 1) (c :: t)
        by_cases hb : beginsWith p (c :: t) = true
        · have hplen : 1 ≤ p.length := one_le_length hp
          have hdrop : ((c :: t).drop p.length).length ≤ t.length := by
            simp only [List.length_drop, List.length_cons]
            omega
          simp only [pyCountAux, hb, if_true]
          rw [ih f (Nat.lt_succ_self f) _ (le_trans hdrop hlen),
            ih t.length (Nat.lt_succ_of_le hlen) _ hdrop]
        · have hb' : beginsWith p (c :: t) = false := by simpa using hb
          simp only [pyCountAux, hb', Bool.false_eq_true, if_false]
          exact ih f (Nat.lt_succ_self f) t hlen

/-- The scan count through the fuel interface. -/
theorem pyCount_eq {p : List Char} (hp : p ≠ []) (s : List Char) :
    pyCount p s = pyCountAux p s.length s := by
  unfold pyCount
  rw [if_neg hp]

/-- The count of a nonempty pattern in the empty text is 0. -/
theorem pyCount_nil {p : List Char} (hp : p ≠ []) : pyCount p [] = 0 := by
  rw [pyCount_eq hp]; rfl

/-- Unfolding: a match at the head is counted once and the scan resumes
right after it. -/
theorem pyCount_pos {p s : List Char} (hp : p ≠ []) (hb : beginsWith p s = true) :
    pyCount p s = pyCount p (s.drop p.length) + 1 := by
  have hplen : 1 ≤ p.length := one_le_length hp
  cases s with
  | nil => rw [beginsWith_nil hp] at hb; cases hb
  | cons c t =>
    have hdrop : ((c :: t).drop p.length).length ≤ t.length := by
      simp only [List.length_drop, List.length_cons]
      omega
    rw [pyCount_eq hp, pyCount_eq hp]
    show pyCountAux p (t.length + 1) (c :: t) = _
    simp only [pyCountAux, hb, if_true]
    rw [pyCountAux_fuel p hp t.length _ hdrop]

/-- Unfolding: with no match at the head the scan advances one character. -/
theorem pyCount_advance {p : List Char} {c : Char} {t : List Char} (hp : p ≠ [])
    (hb : beginsWith p (c :: t) = false) :
    pyCount p (c :: t) = pyCount p t := by
  rw [pyCount_eq hp, pyCount_eq hp]
  show pyCountAux p (t.length + 1) (c :: t) = _
  simp only [pyCountAux, hb, Bool.false_eq_true, if_false]

/-- An occurrence in a suffix is the same occurrence shifted in the whole
text. -/
theorem occursAt_drop (p s : List Char) (k i : ℕ) :
    occursAt p (s.drop k) i = occursAt p s (i + k) := by
  simp [occursAt, List.drop_drop, Nat.add_comm]

/-- Every element after the head of a chain with gaps at least k lies at
least k beyond the head. -/
theorem chain_head_le {k a : ℕ} : ∀ {l : List ℕ},
    List.Chain' (fun x y => x + k ≤ y) (a :: l) → ∀ b ∈ l, a + k ≤ b := by
  intro l
  induction l generalizing a with
  | nil =>
    intro _ b hb
    cases hb
  | cons c rest ih =>
    intro h b hb
    have hac : a + k ≤ c := (List.chain'_cons.mp h).1
    rcases List.mem_cons.mp hb with hbc | hbr
    · subst hbc; exact hac
    · have := ih (List.chain'_cons.mp h).2 b hbr
      omega

/-- Shifting a gap-k chain down by d keeps the gaps when every element is at
least d. -/
theorem chain_sub (k d : ℕ) : ∀ (l : List ℕ),
    (∀ x ∈ l, d ≤ x) → List.Chain' (fun x y => x + k ≤ y) l →
    List.Chain' (fun x y => x + k ≤ y) (l.map (fun x => x - d)) := by
  intro l
  induction l with
  | nil => intro _ _; simp
  | cons a rest ih =>
    intro hd h
    cases rest with
    | nil => simp
    | cons b rest2 =>
      rw [List.map_cons, List.map_cons, List.chain'_cons]
      refine ⟨?_, ?_⟩
      · have hab : a + k ≤ b := (List.chain'_cons.mp h).1
        have hda : d ≤ a := hd a (List.mem_cons_self a _)
        omega
      · have hih := ih (fun x hx => hd x (List.mem_cons_of_mem a hx))
          (List.chain'_cons.mp h).2
        rw [List.map_cons] at hih
        exact hih

/-- Shifting a gap-k chain up by d keeps the gaps. -/
theorem chain_add (k d : ℕ) : ∀ (l : List ℕ),
    List.Chain' (fun x y => x + k ≤ y) l →
    List.Chain' (fun x y => x + k ≤ y) (l.map (fun x => x + d)) := by
  intro l
  induction l with
  | nil => intro _; simp
  | cons a rest ih =>
    intro h
    cases rest with
    | nil => simp
    | cons b rest2 =>
      rw [List.map_cons, List.map_cons, List.chain'_cons]
      refine ⟨?_, ?_⟩
      · have hab : a + k ≤ b := (List.chain'_cons.mp h).1
        omega
      · have hih := ih (List.chain'_cons.mp h).2
        rw [List.map_cons] at hih
        exact hih

/-- Only the empty occurrence list fits the empty text. -/
theorem disjointOccs_nil {p : List Char} (hp : p ≠ []) (idxs : List ℕ)
    (h : DisjointOccs p [] idxs) : idxs = [] := by
  cases idxs with
  | nil => rfl
  | cons i rest =>
    have hi := h.2 i (List.mem_cons_self i rest)
    rw [occursAt, List.drop_nil, beginsWith_nil hp] at hi
    cases hi

/-- The greedy scan realises its own count: a disjoint occurrence list of
length exactly pyCount exists. -/
theorem pyCount_exists {p : List Char} (hp : p ≠ []) :
    ∀ n (s : List Char), s.length ≤ n →
      ∃ idxs, DisjointOccs p s idxs ∧ idxs.length = pyCount p s := by
  intro n
  induction n with
  | zero =>
    intro s hs
    have hnil : s = [] := List.eq_nil_of_length_eq_zero (Nat.le_zero.mp hs)
    subst hnil
    exact ⟨[], ⟨List.chain'_nil, by simp⟩, by simp [pyCount_nil hp]⟩
  | succ n ih =>
    intro s hs
    have hplen : 1 ≤ p.length := one_le_length hp
    by_cases hb : beginsWith p s = true
    · have hslen : 1 ≤ s.length := le_trans hplen (beginsWith_length hb)
      have hd : (s.drop p.length).length ≤ n := by
        simp only [List.length_drop]
        omega
      obtain ⟨idxs, ⟨hchain, hocc⟩, hlen⟩ := ih (s.drop p.length) hd
      refine ⟨0 :: idxs.map (fun i => i + p.length), ⟨?_, ?_⟩, ?_⟩
      · rw [List.chain'_cons']
        refine ⟨?_, chain_add p.length p.length idxs hchain⟩
        intro x hx
        rcases idxs with _ | ⟨j, rest⟩
        · simp at hx
        · simp only [List.map_cons, List.head?_cons, Option.mem_some_iff] at hx
          omega
      · intro i hi
        rcases List.mem_cons.mp hi with h0 | hmem
        · subst h0
          simpa [occursAt] using hb
        · obtain ⟨j, hj, rfl⟩ := List.mem_map.mp hmem
          rw [← occursAt_drop]
          exact hocc j hj
      · simp only [List.length_cons, List.length_map, hlen, pyCount_pos hp hb]
    · cases s with
      | nil => exact ⟨[], ⟨List.chain'_nil, by simp⟩, by simp [pyCount_nil hp]⟩
      | cons c t =>
        have hb' : beginsWith p (c :: t) = false := by simpa using hb
        have ht : t.length ≤ n := by simpa using hs
        obtain ⟨idxs, ⟨hchain, hocc⟩, hlen⟩ := ih t ht
        refine ⟨idxs.map (fun i => i + 1), ⟨chain_add p.length 1 idxs hchain, ?_⟩, ?_⟩
        · intro i hi
          obtain ⟨j, hj, rfl⟩ := List.mem_map.mp hi
          have hjt := hocc j hj
          simpa [occursAt, List.drop_succ_cons] using hjt
        · simp only [List.length_map, hlen, pyCount_advance hp hb']

/-- No disjoint occurrence list is longer than the greedy scan count. -/
theorem pyCount_le {p : List Char} (hp : p ≠ []) :
    ∀ n (s : List Char), s.length ≤ n →
      ∀ idxs, DisjointOccs p s idxs → idxs.length ≤ pyCount p s := by
  intro n
  induction n with
  | zero =>
    intro s hs idxs hdisj
    have hnil : s = [] := List.eq_nil_of_length_eq_zero (Nat.le_zero.mp hs)
    subst hnil
    rw [disjointOccs_nil hp idxs hdisj]
    simp
  | succ n ih =>
    intro s hs idxs hdisj
    have hplen : 1 ≤ p.length := one_le_length hp
    obtain ⟨hchain, hocc⟩ := hdisj
    by_cases hb : beginsWith p s = true
    · rw [pyCount_pos hp hb]
      cases idxs with
      | nil => simp
      | cons i0 rest =>
        have hrest_lb : ∀ b ∈ rest, p.length ≤ b := by
          intro b hbmem
          have := chain_head_le hchain b hbmem
          omega
        have hslen : 1 ≤ s.length := le_trans hplen (beginsWith_length hb)
        have hd : (s.drop p.length).length ≤ n := by
          simp only [List.length_drop]
          omega
        have hocc' : ∀ j ∈ rest.map (fun x => x - p.length),
            occursAt p (s.drop p.length) j = true := by
          intro j hj
          obtain ⟨x, hx, rfl⟩ := List.mem_map.mp hj
          have hxlb := hrest_lb x hx
          rw [occursAt_drop]
          have hxx : x - p.length + p.length = x := by omega
          rw [hxx]
          exact hocc x (List.mem_cons_of_mem i0 hx)
        have hchain' := chain_sub p.length p.length rest hrest_lb hchain.tail
        have hle := ih (s.drop p.length) hd (rest.map (fun x => x - p.length))
          ⟨hchain', hocc'⟩
        simp only [List.length_map] at hle
        simp only [List.length_cons]
        omega
    · cases s with
      | nil =>
        rw [disjointOccs_nil hp idxs ⟨hchain, hocc⟩]
        simp
      | cons c t =>
        have hb' : beginsWith p (c :: t) = false := by simpa using hb
        rw [pyCount_advance hp hb']
        have ht : t.length ≤ n := by simpa using hs
        have hlb : ∀ x ∈ idxs, 1 ≤ x := by
          intro x hx
          rcases Nat.eq_zero_or_pos x with h0 | h1
          · exfalso
            have hx0 := hocc x hx
            rw [h0, occursAt, List.drop_zero, hb'] at hx0
            cases hx0
          · exact h1
        have hocc' : ∀ j ∈ idxs.map (fun x => x - 1), occursAt p t j = true := by
          intro j hj
          obtain ⟨x, hx, rfl⟩ := List.mem_map.mp hj
          have h1x := hlb x hx
          have hx' := hocc x hx
          cases x with
          | zero => omega
          | succ m =>
            rw [occursAt, List.drop_succ_cons] at hx'
            simpa [occursAt] using hx'
        have hchain' := chain_sub p.length 1 idxs hlb hchain
        have hle := ih t ht (idxs.map (fun x => x - 1)) ⟨hchain', hocc'⟩
        simpa using hle

/-- C3 counterexample: on the text aaa with the single keyword aa the
matcher returns 1 (the non-overlapping count), not the overlapping
occurrence count 2 the claim states. -/
theorem C3_counterexample :
    count_words "aaa".toList ["aa".toList] = 1 ∧
    overlapCount "aa".toList "aaa".toList = 2 ∧
    count_words "aaa".toList ["aa".toList] ≠ 2 :=
  ⟨by decide, by decide, by decide⟩

/-- C3 amended: for every concatenated text and keyword list of nonempty
keywords, the matcher returns, summed over the list, the number of
non-overlapping occurrences of each keyword, which is the greatest size of
any set of pairwise disjoint occurrences of that keyword in the text. -/
theorem C3_count_words (text : List Char) (word_list : List (List Char))
    (hw : ∀ w ∈ word_list, w ≠ []) :
    count_words text word_list = (word_list.map (fun w => pyCount w text)).sum ∧
    ∀ w ∈ word_list,
      IsGreatest {n | ∃ idxs, DisjointOccs w text idxs ∧ idxs.length = n}
        (pyCount w text) := by
  refine ⟨rfl, ?_⟩
  intro w hwmem
  have hp := hw w hwmem
  constructor
  · exact pyCount_exists hp text.length text (le_refl _)
  · intro m hm
    obtain ⟨idxs, hdisj, hlen⟩ := hm
    rw [← hlen]
    exact pyCount_le hp text.length text (le_refl _) idxs hdisj

/-- C3 amended witness: the characterisation instantiated on the text aaa
and the keyword list holding aa. -/
theorem C3_count_words_witness :
    (∀ w ∈ ["aa".toList], w ≠ []) ∧
    (count_words "aaa".toList ["aa".toList] =
        (["aa".toList].map (fun w => pyCount w "aaa".toList)).sum ∧
      ∀ w ∈ ["aa".toList],
        IsGreatest {n | ∃ idxs, DisjointOccs w "aaa".toList idxs ∧ idxs.length = n}
          (pyCount w "aaa".toList)) :=
  ⟨by decide, C3_count_words "aaa".toList ["aa".toList] (by decide)⟩

end VoiceOfDine
